import Mathlib

/-!
Shallow embedding of `scripts/fixed_point_data_gen.py`, the fixed-point
test-vector generator for the 4x4 systolic array.

Python integers are modelled as `Int`.  Python's `%` on a positive modulus
agrees with `Int.emod`, which is Lean's `%` on `Int`; Python's arithmetic
right shift `x >> n` is floor division by `2 ^ n`, modelled as
`Int.fdiv x (2 ^ n)`.  The standard library pseudo-random generator
(`random.randint`) is external to the repository; it is modelled as an
explicitly threaded state of an abstract type `σ` together with a pure
draw function `randint : Nat → σ → Int × σ` (`randint hi s` models
`random.randint(0, hi)` performed in state `s`).  Fallible code is
modelled explicitly: the `ValueError` raised by `build_payload` and the
`IndexError` that `multiply_matrices` raises on an empty operand (at
`len(b[0])` or `len(a[0])`) or on any out-of-range element access become
`Except.error` / `Option.none`, so a crash of the program is a crash of
the model.  In particular a size of 0 (or a negative multiple of 4)
passes the divisibility check but then crashes inside
`multiply_matrices`, exactly as the program does.
-/

namespace SystolicGen

/-- Embedding of `saturate_u16`: clamp an unbounded integer into the
unsigned 16-bit range `[0, 0xFFFF]`. -/
def saturate_u16 (value : Int) : Int :=
  if value > 0xFFFF then 0xFFFF
  else if value < 0 then 0
  else value

/-- One row of `generate_matrix`: the inner comprehension
`[random.randint(0, value_range) for _ in range(cols)]`, drawing left to
right while threading the generator state. -/
def generate_row {σ : Type} (randint : Nat → σ → Int × σ)
    (cols : Nat) (value_range : Nat) (s : σ) : List Int × σ :=
  match cols with
  | 0 => ([], s)
  | Nat.succ n =>
    let d := randint value_range s
    let rest := generate_row randint n value_range d.2
    (d.1 :: rest.1, rest.2)

/-- Embedding of `generate_matrix(rows, cols, value_range)`: the outer
comprehension over `range(rows)`, each row drawn fully before the next
(row-major draw order). -/
def generate_matrix {σ : Type} (randint : Nat → σ → Int × σ)
    (rows cols : Nat) (value_range : Nat) (s : σ) : List (List Int) × σ :=
  match rows with
  | 0 => ([], s)
  | Nat.succ n =>
    let row := generate_row randint cols value_range s
    let rest := generate_matrix randint n cols value_range row.2
    (row.1 :: rest.1, rest.2)

/-- The body of the innermost loop of `multiply_matrices`:
`acc += (a[r][k] * b[k][c]) >> frac_bits`, with every element access
checked exactly as Python checks it (`none` models `IndexError`). -/
def mulStep (a b : List (List Int)) (frac_bits : Nat) (r c : Nat)
    (acc : Int) (k : Nat) : Option Int := do
  let ark ← (← a[r]?)[k]?
  let bkc ← (← b[k]?)[c]?
  pure (acc + Int.fdiv (ark * bkc) (2 ^ frac_bits))

/-- Embedding of `multiply_matrices(a, b, frac_bits)`.  Python first
evaluates `cols = len(b[0])` and `depth = len(a[0])` — an `IndexError`
(modelled `none`) when `b` or `a` is empty — then fills the `rows × cols`
result, accumulating `(a[r][k] * b[k][c]) >> frac_bits` over `k < depth`
for each cell and saturating the finished accumulator once with
`saturate_u16`. -/
def multiply_matrices (a b : List (List Int)) (frac_bits : Nat) :
    Option (List (List Int)) := do
  let rows := a.length
  let b0 ← b[0]?
  let cols := b0.length
  let a0 ← a[0]?
  let depth := a0.length
  (List.range rows).mapM fun r =>
    (List.range cols).mapM fun c => do
      let acc ← (List.range depth).foldlM (mulStep a b frac_bits r c) 0
      pure (saturate_u16 acc)

/-- The matrix `multiply_matrices` computes on its success path (all
indices in bounds): cell (r, c) is `saturate_u16` of the accumulated
shifted products.  Element access uses defaults here because the lemma
`multiply_matrices_eq_some` only relates it to `multiply_matrices` when
every access is in bounds. -/
def multiplyCells (a b : List (List Int)) (frac_bits : Nat) :
    List (List Int) :=
  (List.range a.length).map fun r =>
    (List.range (b.getD 0 []).length).map fun c =>
      saturate_u16 ((List.range (a.getD 0 []).length).foldl
        (fun acc k =>
          acc + Int.fdiv ((a.getD r []).getD k 0 * (b.getD k []).getD c 0)
            (2 ^ frac_bits)) 0)

/-- Embedding of `flatten(matrix)`: row-major flattening. -/
def flatten (matrix : List (List Int)) : List Int :=
  matrix.flatten

/-- The message of the `ValueError` raised by `build_payload` for a size
that is not a multiple of 4. -/
def sizeErrorMessage (size : Int) : String :=
  s!"Size {size} is not supported (must be a multiple of 4)"

/-- The message of the `IndexError` raised by an out-of-range list access
inside `multiply_matrices`. -/
def indexErrorMessage : String :=
  "list index out of range"

/-- One per-block record of the `meta["instructions"]` list: the block's
`size` and the four base offsets into the linear memory images. -/
structure InstructionBlock where
  size : Int
  a_base : Int
  b_base : Int
  o_base : Int
  expected_base : Int
deriving DecidableEq, Repr

/-- The `meta` dictionary returned by `build_payload` after the loop. -/
structure PayloadMeta where
  frac_bits : Nat
  instructions : List InstructionBlock
  instruction_count : Nat
  total_a_words : Int
  total_b_words : Int
  total_expected_words : Int
deriving DecidableEq, Repr

/-- The mutable locals of `build_payload`'s loop, bundled as a state
record: the four output accumulators, the recorded blocks, the four
running base offsets, and the threaded generator state. -/
structure BuildSt (σ : Type) where
  instructions : List Int
  data_a : List Int
  data_b : List Int
  expected : List Int
  blocks : List InstructionBlock
  a_base : Int
  b_base : Int
  o_base : Int
  expected_base : Int
  rng : σ
deriving DecidableEq

/-- One iteration of the `for size in sizes` loop of `build_payload`:
validate divisibility (raising the `ValueError` otherwise), generate `A`
(`size × 4`) then `B` (`4 × size`), compute the expected product — which
raises `IndexError` when `size` is not positive, since `A` is then empty —
append everything, record the block with the offsets as they were before
this block, then advance the offsets. -/
def build_step {σ : Type} (randint : Nat → σ → Int × σ)
    (frac_bits value_range : Nat) (st : BuildSt σ) (size : Int) :
    Except String (BuildSt σ) :=
  if size % 4 ≠ 0 then
    .error (sizeErrorMessage size)
  else
    let g1 := generate_matrix randint size.toNat 4 value_range st.rng
    let g2 := generate_matrix randint 4 size.toNat value_range g1.2
    match multiply_matrices g1.1 g2.1 frac_bits with
    | none => .error indexErrorMessage
    | some matrix_c =>
      .ok { instructions := st.instructions ++ [size]
            data_a := st.data_a ++ flatten g1.1
            data_b := st.data_b ++ flatten g2.1
            expected := st.expected ++ flatten matrix_c
            blocks := st.blocks ++ [{ size := size, a_base := st.a_base,
                                      b_base := st.b_base, o_base := st.o_base,
                                      expected_base := st.expected_base }]
            a_base := st.a_base + size * 4
            b_base := st.b_base + size * 4
            o_base := st.o_base + size * size
            expected_base := st.expected_base + size * size
            rng := g2.2 }

/-- The `for size in sizes` loop of `build_payload`, aborting at the first
raised exception. -/
def build_loop {σ : Type} (randint : Nat → σ → Int × σ)
    (frac_bits value_range : Nat) :
    List Int → BuildSt σ → Except String (BuildSt σ)
  | [], st => .ok st
  | size :: rest, st =>
    match build_step randint frac_bits value_range st size with
    | .error e => .error e
    | .ok st1 => build_loop randint frac_bits value_range rest st1

/-- The initial loop state: empty accumulators, all offsets zero. -/
def initSt {σ : Type} (s : σ) : BuildSt σ :=
  { instructions := [], data_a := [], data_b := [], expected := []
    blocks := [], a_base := 0, b_base := 0, o_base := 0, expected_base := 0
    rng := s }

/-- The tuple returned by `build_payload`, plus the final generator state. -/
structure TestVectorBundle (σ : Type) where
  instructions : List Int
  data_a : List Int
  data_b : List Int
  expected : List Int
  meta : PayloadMeta
  rng : σ
deriving DecidableEq

/-- Embedding of `build_payload(sizes, frac_bits, value_range)`: run the
loop, append the sentinel `0` to the instruction stream, and fill in the
aggregate metadata fields from the final offsets. -/
def build_payload {σ : Type} (randint : Nat → σ → Int × σ)
    (sizes : List Int) (frac_bits value_range : Nat) (rng0 : σ) :
    Except String (TestVectorBundle σ) :=
  match build_loop randint frac_bits value_range sizes (initSt rng0) with
  | .error e => .error e
  | .ok st =>
    .ok { instructions := st.instructions ++ [0]
          data_a := st.data_a
          data_b := st.data_b
          expected := st.expected
          meta := { frac_bits := frac_bits
                    instructions := st.blocks
                    instruction_count := sizes.length
                    total_a_words := st.a_base
                    total_b_words := st.b_base
                    total_expected_words := st.expected_base }
          rng := st.rng }

/-- Whether an `Except` result is the error case (a raised exception). -/
def isErr {α : Type} : Except String α → Bool
  | .error _ => true
  | .ok _ => false

/-- A trivial concrete generator used to evaluate the embedding on
concrete inputs: every draw returns `1` and leaves the state unchanged. -/
def constRng : Nat → Unit → Int × Unit := fun _ s => (1, s)

/-- The first element of a list of sizes on which `build_payload` raises:
either a size failing the divisibility check (`ValueError`) or a
nonpositive multiple of 4 (which crashes with `IndexError` inside
`multiply_matrices`). -/
def firstOffender : List Int → Option Int
  | [] => none
  | s :: rest => if s % 4 = 0 ∧ 0 < s then firstOffender rest else some s

/-- Concrete bundle produced for sizes `[4]` with the constant generator. -/
def bundle4 : TestVectorBundle Unit :=
  { instructions := [4, 0]
    data_a := List.replicate 16 1
    data_b := List.replicate 16 1
    expected := List.replicate 16 4
    meta := { frac_bits := 0
              instructions := [⟨4, 0, 0, 0, 0⟩]
              instruction_count := 1
              total_a_words := 16
              total_b_words := 16
              total_expected_words := 16 }
    rng := () }

/-- Concrete bundle produced for sizes `[4, 8]` with the constant generator. -/
def bundle48 : TestVectorBundle Unit :=
  { instructions := [4, 8, 0]
    data_a := List.replicate 48 1
    data_b := List.replicate 48 1
    expected := List.replicate 80 4
    meta := { frac_bits := 0
              instructions := [⟨4, 0, 0, 0, 0⟩, ⟨8, 16, 16, 16, 16⟩]
              instruction_count := 2
              total_a_words := 48
              total_b_words := 48
              total_expected_words := 80 }
    rng := () }

/-- Specification-side count of A-operand (equally, B-operand) words
contributed by a list of sizes: each block contributes `size * 4`. -/
def wordsA : List Int → Int
  | [] => 0
  | size :: rest => size * 4 + wordsA rest

/-- Specification-side count of output (equally, expected) words
contributed by a list of sizes: each block contributes `size * size`. -/
def wordsO : List Int → Int
  | [] => 0
  | size :: rest => size * size + wordsO rest

/-- Specification-side address book: each block records the running base
offsets as they stood before its own data, and the offsets then advance by
`size*4`, `size*4`, `size*size`, `size*size` respectively. -/
def specBlocks (a0 b0 o0 e0 : Int) : List Int → List InstructionBlock
  | [] => []
  | size :: rest =>
    { size := size, a_base := a0, b_base := b0, o_base := o0,
      expected_base := e0 } ::
      specBlocks (a0 + size * 4) (b0 + size * 4) (o0 + size * size)
        (e0 + size * size) rest

/-- Written from the spec's words for the final-saturation discipline
(§4.3): for each cell, sum the four shifted products `k = 0..3` with the
accumulator left unclamped, then saturate the full sum once. -/
def multiply_final_spec (a b : List (List Int)) (frac_bits : Nat) :
    List (List Int) :=
  (List.range a.length).map fun r =>
    (List.range (b.getD 0 []).length).map fun c =>
      saturate_u16 (((List.range 4).map fun k =>
        Int.fdiv ((a.getD r []).getD k 0 * (b.getD k []).getD c 0)
          (2 ^ frac_bits)).sum)

/-- Written from the spec's words for the per-step saturation discipline
(§4.3): the accumulator is clamped by the Saturation Policy after every
partial sum is added. -/
def multiply_per_step (a b : List (List Int)) (frac_bits : Nat) :
    List (List Int) :=
  (List.range a.length).map fun r =>
    (List.range (b.getD 0 []).length).map fun c =>
      (List.range 4).foldl
        (fun acc k =>
          saturate_u16 (acc + Int.fdiv
            ((a.getD r []).getD k 0 * (b.getD k []).getD c 0)
            (2 ^ frac_bits))) 0

theorem saturate_u16_nonneg (v : Int) : 0 ≤ saturate_u16 v := by
  unfold saturate_u16; split_ifs <;> omega

theorem saturate_u16_le_max (v : Int) : saturate_u16 v ≤ 65535 := by
  unfold saturate_u16; split_ifs <;> omega

theorem getD_map_range {α : Type} (f : Nat → α) (n r : Nat) (d : α)
    (h : r < n) : ((List.range n).map f).getD r d = f r := by
  rw [List.getD_eq_getElem?_getD, List.getElem?_map, List.getElem?_range h]
  rfl

theorem foldl_add_eq_sum_map (l : List Nat) (t : Nat → Int) :
    l.foldl (fun acc k => acc + t k) 0 = (l.map t).sum := by
  rw [List.sum_eq_foldl, List.foldl_map]

theorem fdiv_pow_two_le (frac_bits : Nat) (x : Int) :
    2 ^ frac_bits * Int.fdiv x (2 ^ frac_bits) ≤ x ∧
      x < 2 ^ frac_bits * (Int.fdiv x (2 ^ frac_bits) + 1) := by
  have hpos : (0 : Int) < 2 ^ frac_bits := by positivity
  rw [Int.fdiv_eq_ediv x (le_of_lt hpos)]
  have h1 := Int.ediv_add_emod x (2 ^ frac_bits)
  have h2 := Int.emod_nonneg x (by omega : (2 ^ frac_bits : Int) ≠ 0)
  have h3 := Int.emod_lt_of_pos x hpos
  constructor <;> nlinarith

theorem mapM_eq_some_map {α β : Type} (f : α → Option β) (g : α → β)
    (l : List α) (h : ∀ x ∈ l, f x = some (g x)) :
    l.mapM f = some (l.map g) := by
  induction l with
  | nil => rfl
  | cons x xs ih =>
    rw [List.mapM_cons, h x (by simp), ih (fun y hy => h y (by simp [hy]))]
    rfl

theorem foldlM_eq_some_foldl {α : Type} (f : Int → α → Option Int)
    (g : Int → α → Int) (l : List α)
    (h : ∀ acc : Int, ∀ x ∈ l, f acc x = some (g acc x)) :
    ∀ init : Int, l.foldlM f init = some (l.foldl g init) := by
  induction l with
  | nil => intro init; rfl
  | cons x xs ih =>
    intro init
    rw [List.foldlM_cons, h init x (by simp)]
    exact ih (fun acc y hy => h acc y (by simp [hy])) (g init x)

theorem multiply_matrices_eq_some (a b : List (List Int)) (frac_bits cols : Nat)
    (ha : ∀ row ∈ a, row.length = 4) (hb : b.length = 4)
    (hbc : ∀ row ∈ b, row.length = cols) (hne : a ≠ []) :
    multiply_matrices a b frac_bits = some (multiplyCells a b frac_bits) := by
  obtain ⟨a0, arest, rfl⟩ : ∃ a0 arest, a = a0 :: arest := by
    cases a with
    | nil => exact absurd rfl hne
    | cons a0 arest => exact ⟨a0, arest, rfl⟩
  cases b with
  | nil => simp at hb
  | cons b0 brest =>
    have ha0 : a0.length = 4 := ha a0 (by simp)
    have hb0 : b0.length = cols := hbc b0 (by simp)
    simp only [multiply_matrices, multiplyCells, List.getElem?_cons_zero,
      Option.bind_eq_bind, Option.some_bind, List.getD_cons_zero]
    refine mapM_eq_some_map _ _ _ ?_
    intro r hr
    rw [List.mem_range] at hr
    refine mapM_eq_some_map _ _ _ ?_
    intro c hc
    rw [List.mem_range, hb0] at hc
    have hstep : ∀ acc : Int, ∀ k ∈ List.range a0.length,
        mulStep (a0 :: arest) (b0 :: brest) frac_bits r c acc k =
        some (acc + Int.fdiv
          ((((a0 :: arest : List (List Int)).getD r []).getD k 0) *
            (((b0 :: brest : List (List Int)).getD k []).getD c 0))
          (2 ^ frac_bits)) := by
      intro acc k hk
      rw [List.mem_range, ha0] at hk
      have har : r < (a0 :: arest : List (List Int)).length := hr
      have harl : ((a0 :: arest : List (List Int))[r]).length = 4 :=
        ha _ (List.getElem_mem har)
      have hbk : k < (b0 :: brest : List (List Int)).length := by omega
      have hbkl : ((b0 :: brest : List (List Int))[k]).length = cols :=
        hbc _ (List.getElem_mem hbk)
      have hark : k < ((a0 :: arest : List (List Int))[r]).length := by omega
      have hbkc : c < ((b0 :: brest : List (List Int))[k]).length := by omega
      have e1 : ((a0 :: arest : List (List Int)).getD r []) =
          (a0 :: arest : List (List Int))[r] := by
        rw [List.getD_eq_getElem?_getD, List.getElem?_eq_getElem har]; rfl
      have e2 : ((b0 :: brest : List (List Int)).getD k []) =
          (b0 :: brest : List (List Int))[k] := by
        rw [List.getD_eq_getElem?_getD, List.getElem?_eq_getElem hbk]; rfl
      simp only [mulStep, List.getElem?_eq_getElem har,
        List.getElem?_eq_getElem hbk, Option.bind_eq_bind, Option.some_bind,
        List.getElem?_eq_getElem hark, List.getElem?_eq_getElem hbkc,
        Option.pure_def, Option.some.injEq, e1, e2]
      rw [List.getD_eq_getElem?_getD, List.getElem?_eq_getElem hark,
        List.getD_eq_getElem?_getD, List.getElem?_eq_getElem hbkc]
      rfl
    rw [foldlM_eq_some_foldl _ _ _ hstep 0]
    rfl

theorem generate_row_length {σ : Type} (randint : Nat → σ → Int × σ)
    (cols vr : Nat) : ∀ s : σ, (generate_row randint cols vr s).1.length = cols := by
  induction cols with
  | zero => intro s; rfl
  | succ n ih => intro s; simp [generate_row, ih]

theorem generate_matrix_length {σ : Type} (randint : Nat → σ → Int × σ)
    (rows cols vr : Nat) :
    ∀ s : σ, (generate_matrix randint rows cols vr s).1.length = rows := by
  induction rows with
  | zero => intro s; rfl
  | succ n ih => intro s; simp [generate_matrix, ih]

theorem generate_matrix_mem_length {σ : Type} (randint : Nat → σ → Int × σ)
    (rows cols vr : Nat) :
    ∀ s : σ, ∀ row ∈ (generate_matrix randint rows cols vr s).1,
      row.length = cols := by
  induction rows with
  | zero => intro s row h; simp [generate_matrix] at h
  | succ n ih =>
    intro s row h
    simp only [generate_matrix] at h
    rcases List.mem_cons.mp h with rfl | h'
    · exact generate_row_length randint cols vr s
    · exact ih _ row h'

theorem build_step_invalid {σ : Type} (randint : Nat → σ → Int × σ)
    (fb vr : Nat) (st : BuildSt σ) (size : Int) (hmod : size % 4 ≠ 0) :
    build_step randint fb vr st size = .error (sizeErrorMessage size) := by
  simp [build_step, hmod]

theorem build_step_nonpos {σ : Type} (randint : Nat → σ → Int × σ)
    (fb vr : Nat) (st : BuildSt σ) (size : Int) (hmod : size % 4 = 0)
    (hle : size ≤ 0) :
    build_step randint fb vr st size = .error indexErrorMessage := by
  have ht : size.toNat = 0 := Int.toNat_of_nonpos hle
  simp only [build_step, hmod, ne_eq, not_true_eq_false, ite_false, ht]
  rfl

theorem build_step_pos {σ : Type} (randint : Nat → σ → Int × σ)
    (fb vr : Nat) (st : BuildSt σ) (size : Int) (hmod : size % 4 = 0)
    (hpos : 0 < size) :
    build_step randint fb vr st size =
      .ok { instructions := st.instructions ++ [size]
            data_a := st.data_a ++
              flatten (generate_matrix randint size.toNat 4 vr st.rng).1
            data_b := st.data_b ++
              flatten (generate_matrix randint 4 size.toNat vr
                (generate_matrix randint size.toNat 4 vr st.rng).2).1
            expected := st.expected ++
              flatten (multiplyCells
                (generate_matrix randint size.toNat 4 vr st.rng).1
                (generate_matrix randint 4 size.toNat vr
                  (generate_matrix randint size.toNat 4 vr st.rng).2).1 fb)
            blocks := st.blocks ++ [{ size := size, a_base := st.a_base,
                                      b_base := st.b_base, o_base := st.o_base,
                                      expected_base := st.expected_base }]
            a_base := st.a_base + size * 4
            b_base := st.b_base + size * 4
            o_base := st.o_base + size * size
            expected_base := st.expected_base + size * size
            rng := (generate_matrix randint 4 size.toNat vr
              (generate_matrix randint size.toNat 4 vr st.rng).2).2 } := by
  have hmul := multiply_matrices_eq_some
    (generate_matrix randint size.toNat 4 vr st.rng).1
    (generate_matrix randint 4 size.toNat vr
      (generate_matrix randint size.toNat 4 vr st.rng).2).1 fb size.toNat
    (generate_matrix_mem_length randint size.toNat 4 vr st.rng)
    (generate_matrix_length randint 4 size.toNat vr _)
    (generate_matrix_mem_length randint 4 size.toNat vr _)
    (by
      have hlen := generate_matrix_length randint size.toNat 4 vr st.rng
      have hpos' : 0 < size.toNat := by omega
      intro hcon
      rw [hcon] at hlen
      simp at hlen
      omega)
  simp only [build_step, hmod, ne_eq, not_true_eq_false, ite_false, hmul]

theorem build_loop_cons_of_ok {σ : Type} {randint : Nat → σ → Int × σ}
    {fb vr : Nat} {st st1 : BuildSt σ} {size : Int} {rest : List Int}
    (h : build_step randint fb vr st size = .ok st1) :
    build_loop randint fb vr (size :: rest) st =
      build_loop randint fb vr rest st1 := by
  simp [build_loop, h]

theorem build_loop_cons_of_error {σ : Type} {randint : Nat → σ → Int × σ}
    {fb vr : Nat} {st : BuildSt σ} {size : Int} {rest : List Int} {e : String}
    (h : build_step randint fb vr st size = .error e) :
    build_loop randint fb vr (size :: rest) st = .error e := by
  simp [build_loop, h]

theorem build_loop_ok_fields {σ : Type} (randint : Nat → σ → Int × σ)
    (fb vr : Nat) (sizes : List Int) :
    ∀ (st st' : BuildSt σ),
      build_loop randint fb vr sizes st = .ok st' →
      st'.instructions = st.instructions ++ sizes ∧
      st'.a_base = st.a_base + wordsA sizes ∧
      st'.b_base = st.b_base + wordsA sizes ∧
      st'.o_base = st.o_base + wordsO sizes ∧
      st'.expected_base = st.expected_base + wordsO sizes ∧
      st'.blocks = st.blocks ++
        specBlocks st.a_base st.b_base st.o_base st.expected_base sizes := by
  induction sizes with
  | nil =>
    intro st st' h
    simp only [build_loop, Except.ok.injEq] at h
    subst h
    simp [wordsA, wordsO, specBlocks]
  | cons size rest ih =>
    intro st st' h
    by_cases hmod : size % 4 = 0
    · by_cases hpos : 0 < size
      · rw [build_loop_cons_of_ok (build_step_pos randint fb vr st size hmod hpos)] at h
        have hfields := ih _ _ h
        simp only [wordsA, wordsO, specBlocks] at *
        obtain ⟨h1, h2, h3, h4, h5, h6⟩ := hfields
        refine ⟨?_, ?_, ?_, ?_, ?_, ?_⟩ <;>
          simp_all [List.append_assoc] <;> ring
      · rw [build_loop_cons_of_error
          (build_step_nonpos randint fb vr st size hmod (by omega))] at h
        exact absurd h (by simp)
    · rw [build_loop_cons_of_error
        (build_step_invalid randint fb vr st size hmod)] at h
      exact absurd h (by simp)

theorem build_loop_ok_of_valid {σ : Type} (randint : Nat → σ → Int × σ)
    (fb vr : Nat) (sizes : List Int)
    (h : ∀ s ∈ sizes, s % 4 = 0 ∧ 0 < s) :
    ∀ st : BuildSt σ, ∃ st', build_loop randint fb vr sizes st = .ok st' := by
  induction sizes with
  | nil => intro st; exact ⟨st, rfl⟩
  | cons size rest ih =>
    intro st
    obtain ⟨hmod, hpos⟩ := h size (by simp)
    rw [build_loop_cons_of_ok (build_step_pos randint fb vr st size hmod hpos)]
    exact ih (fun s hs => h s (by simp [hs])) _

theorem build_loop_ok_all_good {σ : Type} (randint : Nat → σ → Int × σ)
    (fb vr : Nat) (sizes : List Int) :
    ∀ (st st' : BuildSt σ), build_loop randint fb vr sizes st = .ok st' →
      ∀ s ∈ sizes, s % 4 = 0 ∧ 0 < s := by
  induction sizes with
  | nil => intro st st' h s hs; simp at hs
  | cons size rest ih =>
    intro st st' h s hs
    by_cases hmod : size % 4 = 0
    · by_cases hpos : 0 < size
      · rw [build_loop_cons_of_ok (build_step_pos randint fb vr st size hmod hpos)] at h
        rcases List.mem_cons.mp hs with rfl | hs'
        · exact ⟨hmod, hpos⟩
        · exact ih _ _ h s hs'
      · rw [build_loop_cons_of_error
          (build_step_nonpos randint fb vr st size hmod (by omega))] at h
        exact absurd h (by simp)
    · rw [build_loop_cons_of_error
        (build_step_invalid randint fb vr st size hmod)] at h
      exact absurd h (by simp)

theorem mem_flatten_multiplyCells (a b : List (List Int)) (fb : Nat) (x : Int)
    (hx : x ∈ flatten (multiplyCells a b fb)) : 0 ≤ x ∧ x ≤ 65535 := by
  simp only [flatten, multiplyCells, List.mem_flatten, List.mem_map,
    List.mem_range] at hx
  obtain ⟨row, ⟨r, hr, rfl⟩, hxrow⟩ := hx
  obtain ⟨c, hc, rfl⟩ := List.mem_map.mp hxrow
  exact ⟨saturate_u16_nonneg _, saturate_u16_le_max _⟩

theorem build_loop_expected_range {σ : Type} (randint : Nat → σ → Int × σ)
    (fb vr : Nat) (sizes : List Int) :
    ∀ (st st' : BuildSt σ),
      build_loop randint fb vr sizes st = .ok st' →
      (∀ x ∈ st.expected, 0 ≤ x ∧ x ≤ 65535) →
      ∀ x ∈ st'.expected, 0 ≤ x ∧ x ≤ 65535 := by
  induction sizes with
  | nil =>
    intro st st' h hinv
    simp only [build_loop, Except.ok.injEq] at h
    subst h; exact hinv
  | cons size rest ih =>
    intro st st' h hinv
    by_cases hmod : size % 4 = 0
    · by_cases hpos : 0 < size
      · rw [build_loop_cons_of_ok (build_step_pos randint fb vr st size hmod hpos)] at h
        refine ih _ _ h ?_
        intro x hxmem
        rcases List.mem_append.mp hxmem with hx | hx
        · exact hinv x hx
        · exact mem_flatten_multiplyCells _ _ _ _ hx
      · rw [build_loop_cons_of_error
          (build_step_nonpos randint fb vr st size hmod (by omega))] at h
        exact absurd h (by simp)
    · rw [build_loop_cons_of_error
        (build_step_invalid randint fb vr st size hmod)] at h
      exact absurd h (by simp)

theorem firstOffender_spec (sizes : List Int) :
    ∀ s : Int, firstOffender sizes = some s →
      s ∈ sizes ∧ ¬(s % 4 = 0 ∧ 0 < s) := by
  induction sizes with
  | nil => intro s h; simp [firstOffender] at h
  | cons size rest ih =>
    intro s h
    by_cases hgood : size % 4 = 0 ∧ 0 < size
    · simp only [firstOffender, if_pos hgood] at h
      obtain ⟨hmem, hbad⟩ := ih s h
      exact ⟨by simp [hmem], hbad⟩
    · simp only [firstOffender, if_neg hgood, Option.some.injEq] at h
      subst h
      exact ⟨by simp, hgood⟩

theorem firstOffender_eq_none (sizes : List Int)
    (h : firstOffender sizes = none) : ∀ s ∈ sizes, s % 4 = 0 ∧ 0 < s := by
  induction sizes with
  | nil => simp
  | cons size rest ih =>
    by_cases hgood : size % 4 = 0 ∧ 0 < size
    · simp only [firstOffender, if_pos hgood] at h
      intro s hs
      rcases List.mem_cons.mp hs with rfl | hs'
      · exact hgood
      · exact ih h s hs'
    · simp only [firstOffender, if_neg hgood] at h
      exact absurd h (by simp)

theorem build_loop_error_at_offender {σ : Type} (randint : Nat → σ → Int × σ)
    (fb vr : Nat) (sizes : List Int) (s : Int)
    (h : firstOffender sizes = some s) :
    ∀ st : BuildSt σ, build_loop randint fb vr sizes st =
      .error (if s % 4 ≠ 0 then sizeErrorMessage s else indexErrorMessage) := by
  induction sizes with
  | nil => simp [firstOffender] at h
  | cons size rest ih =>
    intro st
    by_cases hgood : size % 4 = 0 ∧ 0 < size
    · simp only [firstOffender, if_pos hgood] at h
      rw [build_loop_cons_of_ok (build_step_pos randint fb vr st size hgood.1 hgood.2)]
      exact ih h _
    · simp only [firstOffender, if_neg hgood, Option.some.injEq] at h
      subst h
      by_cases hmod : size % 4 = 0
      · have hle : size ≤ 0 := by
          rcases not_and_or.mp hgood with hc | hc
          · exact absurd hmod hc
          · omega
        rw [build_loop_cons_of_error
          (build_step_nonpos randint fb vr st size hmod hle)]
        simp [hmod]
      · rw [build_loop_cons_of_error
          (build_step_invalid randint fb vr st size hmod)]
        simp [hmod]

theorem multiplyCells_getD (a b : List (List Int)) (fb : Nat) (r c : Nat)
    (hr : r < a.length) (hc : c < (b.getD 0 []).length) :
    ((multiplyCells a b fb).getD r []).getD c 0 =
      saturate_u16 ((List.range (a.getD 0 []).length).foldl
        (fun acc k =>
          acc + Int.fdiv ((a.getD r []).getD k 0 * (b.getD k []).getD c 0)
            (2 ^ fb)) 0) := by
  simp only [multiplyCells]
  rw [getD_map_range _ _ _ _ hr, getD_map_range _ _ _ _ hc]

/-- C1 counterexample: the empty matrix is a 0 x 4 matrix (every row has
length 4, vacuously), yet `multiply_matrices` on it raises the
`IndexError` at `len(a[0])` (modelled `none`) instead of returning a
0 x cols matrix, so the claim fails at rows = 0. -/
theorem multiply_empty_counterexample :
    (∀ row ∈ ([] : List (List Int)), row.length = 4) ∧
    ([[(5 : Int)], [6], [7], [8]] : List (List Int)).length = 4 ∧
    multiply_matrices [] [[(5 : Int)], [6], [7], [8]] 0 = none := by
  refine ⟨by simp, by decide, rfl⟩

/-- C1 (amended): for every non-empty matrix A of shape rows x 4 and B of
shape 4 x cols with integer entries and every non-negative frac_bits,
`multiply_matrices` succeeds and returns the rows x cols matrix whose cell
(r, c) is the Saturation Policy applied to the sum over k = 0..3 of the
floor division of `A[r][k] * B[k][c]` by `2 ^ frac_bits`; the last
conjunct certifies that `Int.fdiv _ (2 ^ frac_bits)` is floor division
(the quotient q satisfies `2^f * q ≤ x < 2^f * (q + 1)`), i.e. an
arithmetic right shift, not truncation toward zero. -/
theorem multiply_matrices_correct (a b : List (List Int)) (frac_bits cols : Nat)
    (ha : ∀ row ∈ a, row.length = 4) (hb : b.length = 4)
    (hbc : ∀ row ∈ b, row.length = cols) (hne : a ≠ []) :
    multiply_matrices a b frac_bits = some (multiplyCells a b frac_bits) ∧
    (multiplyCells a b frac_bits).length = a.length ∧
    (∀ row ∈ multiplyCells a b frac_bits, row.length = cols) ∧
    (∀ r c : Nat, r < a.length → c < cols →
      ((multiplyCells a b frac_bits).getD r []).getD c 0 =
        saturate_u16 (((List.range 4).map fun k =>
          Int.fdiv ((a.getD r []).getD k 0 * (b.getD k []).getD c 0)
            (2 ^ frac_bits)).sum)) ∧
    (∀ x : Int, 2 ^ frac_bits * Int.fdiv x (2 ^ frac_bits) ≤ x ∧
      x < 2 ^ frac_bits * (Int.fdiv x (2 ^ frac_bits) + 1)) := by
  refine ⟨multiply_matrices_eq_some a b frac_bits cols ha hb hbc hne, ?_, ?_, ?_,
    fun x => fdiv_pow_two_le frac_bits x⟩
  · simp [multiplyCells]
  · cases b with
    | nil => simp at hb
    | cons b0 brest =>
      have hb0 : b0.length = cols := hbc b0 (by simp)
      intro row hrow
      simp only [multiplyCells, List.mem_map, List.mem_range] at hrow
      obtain ⟨r, hr, rfl⟩ := hrow
      simpa using hb0
  · cases b with
    | nil => simp at hb
    | cons b0 brest =>
      have hb0 : b0.length = cols := hbc b0 (by simp)
      intro r c hr hc
      cases a with
      | nil => simp at hr
      | cons a0 arest =>
        have hdepth : (((a0 :: arest : List (List Int))).getD 0 []).length = 4 :=
          ha a0 (by simp)
        rw [multiplyCells_getD _ _ _ _ _ hr (by simpa [hb0] using hc), hdepth,
          foldl_add_eq_sum_map]

/-- C1 witness: the spec's reference computation, frac_bits = 0,
A = [[1,2,3,4]], B the 4x1 column [5,6,7,8]: the product is the
1x1 matrix [[70]]. -/
theorem multiply_matrices_correct_witness :
    (∀ row ∈ [[(1 : Int), 2, 3, 4]], row.length = 4) ∧
    ([[(5 : Int)], [6], [7], [8]] : List (List Int)).length = 4 ∧
    (∀ row ∈ ([[(5 : Int)], [6], [7], [8]] : List (List Int)), row.length = 1) ∧
    ([[(1 : Int), 2, 3, 4]] : List (List Int)) ≠ [] ∧
    multiply_matrices [[1, 2, 3, 4]] [[5], [6], [7], [8]] 0 =
      some (multiplyCells [[1, 2, 3, 4]] [[5], [6], [7], [8]] 0) ∧
    ((multiplyCells [[1, 2, 3, 4]] [[5], [6], [7], [8]] 0).getD 0 []).getD 0 0 =
      saturate_u16 (((List.range 4).map fun k =>
        Int.fdiv ((([[(1 : Int), 2, 3, 4]] : List (List Int)).getD 0 []).getD k 0 *
          (([[(5 : Int)], [6], [7], [8]] : List (List Int)).getD k []).getD 0 0)
          (2 ^ 0)).sum) ∧
    multiply_matrices [[1, 2, 3, 4]] [[5], [6], [7], [8]] 0 = some [[70]] := by
  have h := multiply_matrices_correct [[1, 2, 3, 4]] [[5], [6], [7], [8]] 0 1
    (by decide) (by decide) (by decide) (by decide)
  exact ⟨by decide, by decide, by decide, by decide, h.1,
    h.2.2.2.1 0 0 (by decide) (by decide), rfl⟩

/-- C2: for every integer value, `saturate_u16` returns a value in
[0, 65535], maps any value above 65535 to exactly 65535, any negative
value to exactly 0, leaves in-range values unchanged, and is idempotent.
Being a total Lean function, it raises no exception. -/
theorem saturate_u16_clamps (value : Int) :
    0 ≤ saturate_u16 value ∧ saturate_u16 value ≤ 65535 ∧
    (value > 65535 → saturate_u16 value = 65535) ∧
    (value < 0 → saturate_u16 value = 0) ∧
    (0 ≤ value → value ≤ 65535 → saturate_u16 value = value) ∧
    saturate_u16 (saturate_u16 value) = saturate_u16 value := by
  unfold saturate_u16
  split_ifs <;> omega

/-- C2 witness: concrete clamping above range, below range, and in range. -/
theorem saturate_u16_clamps_witness :
    ((70000 : Int) > 65535 ∧ saturate_u16 70000 = 65535) ∧
    ((-5 : Int) < 0 ∧ saturate_u16 (-5) = 0) ∧
    ((0 : Int) ≤ 1234 ∧ (1234 : Int) ≤ 65535 ∧ saturate_u16 1234 = 1234) :=
  ⟨⟨by decide, (saturate_u16_clamps 70000).2.2.1 (by decide)⟩,
   ⟨by decide, (saturate_u16_clamps (-5)).2.2.2.1 (by decide)⟩,
   ⟨by decide, by decide, (saturate_u16_clamps 1234).2.2.2.2.1 (by decide) (by decide)⟩⟩

/-- C3 counterexample: sizes = [0, 5] contains the size 5, not a multiple
of 4, yet the run fails with the `IndexError` raised at size 0 inside
`multiply_matrices` — the `ValueError` naming 5 is never raised, so the
claim fails as stated. -/
theorem config_error_preempted_counterexample :
    ((5 : Int) ∈ ([0, 5] : List Int) ∧ (5 : Int) % 4 ≠ 0) ∧
    build_payload constRng [0, 5] 0 1 () = .error indexErrorMessage ∧
    indexErrorMessage ≠ sizeErrorMessage 5 := by
  refine ⟨by decide, rfl, by decide⟩

/-- C3 (amended): whenever the first size at which `build_payload` raises
(`firstOffender`: the first size that is not a positive multiple of 4)
fails the divisibility check, the run fails with the configuration error
whose message names that offending size; the error value carries no
partial output.  (When the first offender is instead a nonpositive
multiple of 4, the run crashes with the `IndexError` — see C10.) -/
theorem build_payload_invalid_size_error {σ : Type} (randint : Nat → σ → Int × σ)
    (sizes : List Int) (fb vr : Nat) (s0 : σ) (s : Int)
    (h : firstOffender sizes = some s) (hmod : s % 4 ≠ 0) :
    s ∈ sizes ∧
      build_payload randint sizes fb vr s0 = .error (sizeErrorMessage s) := by
  have hmem := (firstOffender_spec sizes s h).1
  have herr := build_loop_error_at_offender randint fb vr sizes s h (initSt s0)
  rw [if_pos hmod] at herr
  exact ⟨hmem, by simp [build_payload, herr]⟩

/-- C3 witness: sizes = [5] fails with the message naming 5, while
sizes = [4] succeeds. -/
theorem build_payload_invalid_size_error_witness :
    firstOffender [5] = some 5 ∧ (5 : Int) % 4 ≠ 0 ∧
    (5 : Int) ∈ ([5] : List Int) ∧
    build_payload constRng [5] 0 1 () = .error (sizeErrorMessage 5) ∧
    sizeErrorMessage 5 = "Size 5 is not supported (must be a multiple of 4)" ∧
    isErr (build_payload constRng [4] 0 1 ()) = false := by
  have h := build_payload_invalid_size_error constRng [5] 0 1 () 5
    (by decide) (by decide)
  exact ⟨by decide, by decide, h.1, h.2, by decide, by decide⟩

/-- C4: every successful `build_payload` run records, for each block, the
four running base offsets as they stood before that block's data, advancing
by size*4, size*4, size*size, size*size (this is exactly `specBlocks`), and
the aggregate word counts equal the final offset values, namely the totals
`wordsA`/`wordsO` of the whole list. -/
theorem build_payload_addressing {σ : Type} (randint : Nat → σ → Int × σ)
    (sizes : List Int) (fb vr : Nat) (s0 : σ) (out : TestVectorBundle σ)
    (hok : build_payload randint sizes fb vr s0 = .ok out) :
    out.meta.instructions = specBlocks 0 0 0 0 sizes ∧
    out.meta.instruction_count = sizes.length ∧
    out.meta.total_a_words = wordsA sizes ∧
    out.meta.total_b_words = wordsA sizes ∧
    out.meta.total_expected_words = wordsO sizes := by
  unfold build_payload at hok
  cases hloop : build_loop randint fb vr sizes (initSt s0) with
  | error e => rw [hloop] at hok; exact absurd hok (by simp)
  | ok st =>
    rw [hloop] at hok
    simp only [Except.ok.injEq] at hok
    obtain ⟨-, h2, h3, h4, h5, h6⟩ := build_loop_ok_fields randint fb vr sizes _ _ hloop
    subst hok
    simp only [initSt] at h2 h3 h4 h5 h6
    exact ⟨by simpa using h6, rfl, by simpa using h2, by simpa using h3,
      by simpa using h5⟩

/-- C4 witness: for sizes = [4, 8], block 0 has a_base = 0, block 1 has
a_base = 16 and o_base = 16, and total_a_words = 48. -/
theorem build_payload_addressing_witness :
    build_payload constRng [4, 8] 0 1 () = .ok bundle48 ∧
    bundle48.meta.instructions = [⟨4, 0, 0, 0, 0⟩, ⟨8, 16, 16, 16, 16⟩] ∧
    bundle48.meta.instruction_count = 2 ∧
    bundle48.meta.total_a_words = 48 ∧
    bundle48.meta.total_b_words = 48 ∧
    bundle48.meta.total_expected_words = 80 := by
  have h := build_payload_addressing constRng [4, 8] 0 1 () bundle48 rfl
  exact ⟨rfl, h.1.trans (by decide), h.2.1.trans (by decide),
    h.2.2.1.trans (by decide), h.2.2.2.1.trans (by decide),
    h.2.2.2.2.trans (by decide)⟩

/-- C5: for every non-empty sizes list accepted by `build_payload` (the
run returns successfully), the instruction stream is the sizes followed by
the sentinel, its last element is 0, and no other element is 0 — every
size a successful run actually processed is a positive multiple of 4, so
no interior element of the stream can be 0. -/
theorem instruction_stream_termination {σ : Type} (randint : Nat → σ → Int × σ)
    (sizes : List Int) (fb vr : Nat) (s0 : σ) (out : TestVectorBundle σ)
    (_hne : sizes ≠ []) (hok : build_payload randint sizes fb vr s0 = .ok out) :
    out.instructions = sizes ++ [0] ∧
    out.instructions.getLast? = some 0 ∧
    (0 : Int) ∉ out.instructions.dropLast := by
  unfold build_payload at hok
  cases hloop : build_loop randint fb vr sizes (initSt s0) with
  | error e => rw [hloop] at hok; exact absurd hok (by simp)
  | ok st =>
    rw [hloop] at hok
    simp only [Except.ok.injEq] at hok
    have hgood := build_loop_ok_all_good randint fb vr sizes _ _ hloop
    obtain ⟨h1, -, -, -, -, -⟩ := build_loop_ok_fields randint fb vr sizes _ _ hloop
    subst hok
    simp only [initSt, List.nil_append] at h1
    refine ⟨by simp [h1], by simp [h1, List.getLast?_concat], ?_⟩
    simp only [h1, List.dropLast_concat]
    intro hmem
    have := hgood 0 hmem
    omega

/-- C5 witness: sizes = [4] is non-empty, succeeds, and its instruction
stream [4, 0] ends in the only 0. -/
theorem instruction_stream_termination_witness :
    ([4] : List Int) ≠ [] ∧
    build_payload constRng [4] 0 1 () = .ok bundle4 ∧
    bundle4.instructions = [4] ++ [0] ∧
    bundle4.instructions.getLast? = some 0 ∧
    (0 : Int) ∉ bundle4.instructions.dropLast := by
  have h := instruction_stream_termination constRng [4] 0 1 () bundle4
    (by decide) rfl
  exact ⟨by decide, rfl, h.1, h.2.1, h.2.2⟩

/-- C6: generation is deterministic — with the pseudo-random generator
modelled as a pure draw function over an explicitly threaded state (seeded
by a pure function of the seed), two runs with equal seed, sizes,
fractional bits and value range produce identical bundles: instruction
stream, A data, B data, expected data and metadata. -/
theorem build_payload_deterministic {σ : Type} (randint : Nat → σ → Int × σ)
    (seedFn : Int → σ) (sizes1 sizes2 : List Int) (fb1 fb2 vr1 vr2 : Nat)
    (seed1 seed2 : Int) (hsizes : sizes1 = sizes2) (hfb : fb1 = fb2)
    (hvr : vr1 = vr2) (hseed : seed1 = seed2) :
    build_payload randint sizes1 fb1 vr1 (seedFn seed1) =
      build_payload randint sizes2 fb2 vr2 (seedFn seed2) := by
  subst hsizes; subst hfb; subst hvr; subst hseed; rfl

/-- C6 witness: two identically configured runs at sizes [4, 8] coincide. -/
theorem build_payload_deterministic_witness :
    ([4, 8] : List Int) = [4, 8] ∧ (0 : Nat) = 0 ∧ (7 : Nat) = 7 ∧ (1 : Int) = 1 ∧
    build_payload constRng [4, 8] 0 7 ((fun _ => ()) (1 : Int)) =
      build_payload constRng [4, 8] 0 7 ((fun _ => ()) (1 : Int)) :=
  ⟨rfl, rfl, rfl, rfl,
    build_payload_deterministic constRng (fun _ => ()) [4, 8] [4, 8] 0 0 7 7 1 1
      rfl rfl rfl rfl⟩

/-- C7 counterexample: the code's multiplier disagrees with the per-step
saturation discipline on a concrete input (an intermediate accumulator
overflow followed by a negative term), so `multiply_matrices` does not
offer per-step saturation: it has no configuration parameter and always
saturates once, at the end. -/
theorem per_step_saturation_counterexample :
    multiply_matrices [[70000, -1, 0, 0]] [[1], [4465], [0], [0]] 0 =
      some [[65535]] ∧
    multiply_per_step [[70000, -1, 0, 0]] [[1], [4465], [0], [0]] 0 = [[61070]] ∧
    multiply_matrices [[70000, -1, 0, 0]] [[1], [4465], [0], [0]] 0 ≠
      some (multiply_per_step [[70000, -1, 0, 0]] [[1], [4465], [0], [0]] 0) := by
  refine ⟨rfl, by decide, by decide⟩

/-- C7 (amended): the multiplier implements exactly one saturation
discipline, final saturation — the accumulator is left unclamped until the
last term has been added and the full sum is then saturated once; on every
non-empty A of shape rows x 4 and B of shape 4 x cols it succeeds with
exactly the spec's final-saturation formula. -/
theorem multiply_matrices_final_saturation (a b : List (List Int))
    (frac_bits cols : Nat) (ha : ∀ row ∈ a, row.length = 4)
    (hb : b.length = 4) (hbc : ∀ row ∈ b, row.length = cols) (hne : a ≠ []) :
    multiply_matrices a b frac_bits = some (multiply_final_spec a b frac_bits) := by
  rw [multiply_matrices_eq_some a b frac_bits cols ha hb hbc hne]
  cases a with
  | nil => exact absurd rfl hne
  | cons a0 arest =>
    have hdepth : (((a0 :: arest : List (List Int))).getD 0 []).length = 4 :=
      ha a0 (by simp)
    simp only [multiplyCells, multiply_final_spec, hdepth, Option.some.injEq]
    refine List.map_congr_left fun r hr => List.map_congr_left fun c hc => ?_
    rw [foldl_add_eq_sum_map]

/-- C7 witness: a concrete instance of the final-saturation refinement. -/
theorem multiply_matrices_final_saturation_witness :
    (∀ row ∈ ([[(9 : Int), 8, 7, 6]] : List (List Int)), row.length = 4) ∧
    ([[(1 : Int)], [2], [3], [4]] : List (List Int)).length = 4 ∧
    (∀ row ∈ ([[(1 : Int)], [2], [3], [4]] : List (List Int)), row.length = 1) ∧
    ([[(9 : Int), 8, 7, 6]] : List (List Int)) ≠ [] ∧
    multiply_matrices [[9, 8, 7, 6]] [[1], [2], [3], [4]] 1 =
      some (multiply_final_spec [[9, 8, 7, 6]] [[1], [2], [3], [4]] 1) :=
  ⟨by decide, by decide, by decide, by decide,
    multiply_matrices_final_saturation [[9, 8, 7, 6]] [[1], [2], [3], [4]] 1 1
      (by decide) (by decide) (by decide) (by decide)⟩

/-- C8 counterexample: sizes = [0] consists only of multiples of 4, yet
the run fails — with the `IndexError` raised inside `multiply_matrices`
on the empty 0 x 4 operand — refuting the claim that such a list never
fails. -/
theorem total_range_zero_counterexample :
    (∀ s ∈ ([0] : List Int), s % 4 = 0) ∧
    build_payload constRng [0] 0 1 () = .error indexErrorMessage ∧
    isErr (build_payload constRng [0] 0 1 ()) = true := by
  refine ⟨by decide, rfl, rfl⟩

/-- C8 (amended): for every sizes list of positive multiples of 4 (any
non-negative frac_bits and value range), `build_payload` never fails —
the arithmetic is total — and every element of the expected-output
sequence lies in [0, 65535], because saturation is applied to every
accumulated cell. -/
theorem build_payload_total_range {σ : Type} (randint : Nat → σ → Int × σ)
    (sizes : List Int) (fb vr : Nat) (s0 : σ) (out : TestVectorBundle σ)
    (h : ∀ s ∈ sizes, s % 4 = 0 ∧ 0 < s) :
    isErr (build_payload randint sizes fb vr s0) = false ∧
    (build_payload randint sizes fb vr s0 = .ok out →
      ∀ x ∈ out.expected, 0 ≤ x ∧ x ≤ 65535) := by
  obtain ⟨st, hst⟩ := build_loop_ok_of_valid randint fb vr sizes h (initSt s0)
  constructor
  · simp [build_payload, hst, isErr]
  · intro hok x hx
    unfold build_payload at hok
    rw [hst] at hok
    simp only [Except.ok.injEq] at hok
    subst hok
    refine build_loop_expected_range randint fb vr sizes _ _ hst ?_ x hx
    simp [initSt]

/-- C8 witness: the run for sizes = [4] succeeds and its expected data are
in range. -/
theorem build_payload_total_range_witness :
    (∀ s ∈ ([4] : List Int), s % 4 = 0 ∧ 0 < s) ∧
    isErr (build_payload constRng [4] 0 1 ()) = false ∧
    (build_payload constRng [4] 0 1 () = .ok bundle4 →
      ∀ x ∈ bundle4.expected, 0 ≤ x ∧ x ≤ 65535) := by
  have h := build_payload_total_range constRng [4] 0 1 () bundle4 (by decide)
  exact ⟨by decide, h.1, h.2⟩

/-- C9: `build_payload` on the empty sizes list succeeds, returning the
instruction stream [0], empty A, B and expected data, instruction count 0
and all three aggregate word counts 0. -/
theorem build_payload_empty_sizes {σ : Type} (randint : Nat → σ → Int × σ)
    (fb vr : Nat) (s0 : σ) :
    build_payload randint [] fb vr s0 =
      .ok ⟨[0], [], [], [], ⟨fb, [], 0, 0, 0, 0⟩, s0⟩ := rfl

/-- C10 counterexample: size 0 passes the divisibility check but sizes
containing 0 are not accepted: `build_payload` on [0] fails with the
`IndexError` raised inside `multiply_matrices`, and on [0, 5] that crash
preempts the configuration `ValueError`, so the error raised is not the
configuration error even though 5 is not a multiple of 4 — refuting both
halves of the claim. -/
theorem zero_size_rejected_counterexample :
    ((0 : Int) % 4 = 0) ∧
    build_payload constRng [0] 0 1 () = .error indexErrorMessage ∧
    isErr (build_payload constRng [0] 0 1 ()) = true ∧
    ((5 : Int) ∈ ([0, 5] : List Int) ∧ (5 : Int) % 4 ≠ 0) ∧
    build_payload constRng [0, 5] 0 1 () = .error indexErrorMessage ∧
    indexErrorMessage ≠ sizeErrorMessage 5 ∧
    indexErrorMessage ≠ sizeErrorMessage 0 := by
  refine ⟨by decide, rfl, rfl, by decide, rfl, by decide, by decide⟩

/-- C10 (amended): `build_payload` raises an error if and only if some
size is not a positive multiple of 4.  Size 0 passes the divisibility
check (0 mod 4 = 0), but a sizes list containing 0 is rejected all the
same: the run crashes with the `IndexError` inside `multiply_matrices`
(the 0 x 4 operand is empty), as the final conjunct shows for sizes = [0],
rather than producing a 0 entry in the instruction stream. -/
theorem build_payload_zero_size {σ : Type} (randint : Nat → σ → Int × σ)
    (sizes : List Int) (fb vr : Nat) (s0 : σ) :
    (isErr (build_payload randint sizes fb vr s0) = true ↔
      ∃ s ∈ sizes, s % 4 ≠ 0 ∨ s ≤ 0) ∧
    (0 : Int) % 4 = 0 ∧
    build_payload randint [0] fb vr s0 = .error indexErrorMessage := by
  refine ⟨⟨?_, ?_⟩, rfl, rfl⟩
  · intro herr
    by_contra hnone
    push_neg at hnone
    obtain ⟨st, hst⟩ := build_loop_ok_of_valid randint fb vr sizes hnone (initSt s0)
    rw [build_payload, hst] at herr
    simp [isErr] at herr
  · intro hbad
    cases hoff : firstOffender sizes with
    | none =>
      obtain ⟨s, hs, hbad'⟩ := hbad
      have hgood := firstOffender_eq_none sizes hoff s hs
      rcases hbad' with h1 | h1 <;> omega
    | some s =>
      have herr := build_loop_error_at_offender randint fb vr sizes s hoff (initSt s0)
      rw [build_payload, herr]
      rfl

/-- C10 witness: sizes = [5] errors, 0 passes the divisibility check, and
sizes = [0] fails with the index error. -/
theorem build_payload_zero_size_witness :
    isErr (build_payload constRng [5] 0 1 ()) = true ∧
    (0 : Int) % 4 = 0 ∧
    build_payload constRng [0] 0 1 () = .error indexErrorMessage := by
  have h := build_payload_zero_size constRng [5] 0 1 ()
  exact ⟨h.1.mpr (by decide), h.2.1, h.2.2⟩

end SystolicGen
